import Mathlib

/-!
Verification of the schema-preview inference engine (`_schema.py`) and tree
renderer (`_tree.py`).

Python values are embedded as the inductive `PyVal`; unbounded Python `int`
is `Int`.  `infer_schema` can raise in CPython (`islice` rejects a negative
`stop`; `_merge_dict_schemas` does `d.items()` on every element whose type
name is `"dict"`, which is an `AttributeError` when such an element is not an
actual `dict`), so the embedding returns `Except String (SchemaNode × List
String)`: the inferred node together with the list of `warnings.warn`
messages emitted, in emission order, or the raised exception.  The
`sys.maxsize` upper bound of `islice` and the interpreter recursion limit are
abstracted away (Python ints are modelled as unbounded).
-/

namespace SchemaPreview

/-- A Python runtime value, as far as `schema_preview` can observe it.
`pyObj cls` stands for an instance of a user-defined class whose
`type(x).__name__` is `cls` and which has no `items` attribute.  `pyFloat`
carries no payload: the numeric value of a float never influences inference.
Iteration order of `set`/`frozenset` is whatever CPython yields in a single
pass, which is deterministic; it is modelled by the order of the embedded
list. -/
inductive PyVal where
  | pyNone : PyVal
  | pyBool (b : Bool) : PyVal
  | pyInt (n : Int) : PyVal
  | pyFloat : PyVal
  | pyStr (s : String) : PyVal
  | pyList (xs : List PyVal) : PyVal
  | pyTuple (xs : List PyVal) : PyVal
  | pySet (xs : List PyVal) : PyVal
  | pyFrozenset (xs : List PyVal) : PyVal
  | pyDict (kvs : List (String × PyVal)) : PyVal
  | pyObj (cls : String) : PyVal

/-- `_type_name(value)` = `type(value).__name__`. -/
def _type_name : PyVal → String
  | .pyNone => "NoneType"
  | .pyBool _ => "bool"
  | .pyInt _ => "int"
  | .pyFloat => "float"
  | .pyStr _ => "str"
  | .pyList _ => "list"
  | .pyTuple _ => "tuple"
  | .pySet _ => "set"
  | .pyFrozenset _ => "frozenset"
  | .pyDict _ => "dict"
  | .pyObj cls => cls

/-- The `SchemaNode` dataclass of `_schema.py`. -/
inductive SchemaNode where
  | mk (key : String) (types : List String) (children : List SchemaNode)
      (element_type : Option String) : SchemaNode

def SchemaNode.key : SchemaNode → String
  | .mk k _ _ _ => k

def SchemaNode.types : SchemaNode → List String
  | .mk _ t _ _ => t

def SchemaNode.children : SchemaNode → List SchemaNode
  | .mk _ _ c _ => c

def SchemaNode.element_type : SchemaNode → Option String
  | .mk _ _ _ e => e

/-- Insert into an ascending list: one step of Python `sorted` on strings
(string comparison is lexicographic on code points in both languages). -/
def insertSorted (s : String) : List String → List String
  | [] => [s]
  | t :: rest => if s ≤ t then s :: t :: rest else t :: insertSorted s rest

/-- Python `sorted` on a list of strings. -/
def sortStrings (l : List String) : List String := l.foldr insertSorted []

/-- Collapse adjacent duplicates of a sorted list: together with
`sortStrings` this is Python `sorted(set(l))`. -/
def dedupSorted : List String → List String
  | [] => []
  | [s] => [s]
  | s :: t :: rest =>
      if s = t then dedupSorted (t :: rest) else s :: dedupSorted (t :: rest)

/-- Python `sorted(set(l))`: the distinct members of `l` in ascending
order. -/
def pyDistinctSorted (l : List String) : List String :=
  dedupSorted (sortStrings l)

/-- Python `repr` of a type-name string: type names contain no quotes or
escapes, so `repr` is the string in single quotes. -/
def pyStrRepr (s : String) : String := "'" ++ s ++ "'"

/-- Python `str`/`repr` of a list of type-name strings, e.g.
`['NoneType', 'int']`. -/
def pyReprStrList (l : List String) : String :=
  "[" ++ String.intercalate ", " (l.map pyStrRepr) ++ "]"

/-- The message `warnings.warn` receives in the mixed-type branch of
`_infer_sequence`: `f"Key '{key}': mixed types in list: {sorted(type_names)}"`. -/
def mixedWarning (key : String) (sortedTypes : List String) : String :=
  "Key '" ++ key ++ "': mixed types in list: " ++ pyReprStrList sortedTypes

/-- The `ValueError` CPython's `islice` raises for a negative `stop`. -/
def isliceError : String :=
  "ValueError: Stop argument for islice() must be None or an integer: 0 <= x <= sys.maxsize."

/-- The `AttributeError` raised by `d.items()` in `_merge_dict_schemas` when
`d` is not an actual mapping. -/
def attrItemsError (typeName : String) : String :=
  "AttributeError: " ++ pyStrRepr typeName ++ " object has no attribute 'items'"

/-- `isinstance(d, dict)` for the embedded values. -/
def PyVal.isDict : PyVal → Bool
  | .pyDict _ => true
  | _ => false

/-- The `(key, value)` pairs `d.items()` yields; only consulted on values
that are actual dicts. -/
def entriesOf : PyVal → List (String × PyVal)
  | .pyDict kvs => kvs
  | _ => []

/-- `key_values[k]` of `_merge_dict_schemas`: the values stored at key `k`,
walking every dict in order and every `items()` pair in order. -/
def collectValues (k : String) : List PyVal → List PyVal
  | [] => []
  | d :: rest =>
      ((entriesOf d).filter (fun kv => kv.1 == k)).map Prod.snd
        ++ collectValues k rest

/-- `key_types[k]` of `_merge_dict_schemas`: the type name of each value
stored at key `k`, in the same walk order. -/
def collectTypes (k : String) (dicts : List PyVal) : List String :=
  (collectValues k dicts).map _type_name

/-- `all_keys.setdefault(k, None)`: append `k` if it was not seen yet. -/
def insertKey (acc : List String) (k : String) : List String :=
  if k ∈ acc then acc else acc ++ [k]

/-- The union of keys across all dicts in first-seen order (`all_keys` of
`_merge_dict_schemas`). -/
def firstSeenKeys (dicts : List PyVal) : List String :=
  dicts.foldl (fun acc d => (entriesOf d).foldl (fun a kv => insertKey a kv.1) acc) []

/-- The combined sample pool
`[item for lst in values if isinstance(lst, list) for item in lst]`. -/
def flattenLists : List PyVal → List PyVal
  | [] => []
  | .pyList xs :: rest => xs ++ flattenLists rest
  | _ :: rest => flattenLists rest

theorem one_le_sizeOf_pyVal (v : PyVal) : 1 ≤ sizeOf v := by
  cases v <;> simp

theorem sizeOf_pyList_append (a b : List PyVal) :
    sizeOf (a ++ b) + 1 = sizeOf a + sizeOf b := by
  induction a with
  | nil => simp; omega
  | cons x rest ih => simp at ih ⊢; omega

theorem sizeOf_pyList_take (n : Nat) (xs : List PyVal) :
    sizeOf (xs.take n) ≤ sizeOf xs := by
  induction xs generalizing n with
  | nil => simp
  | cons x rest ih =>
    cases n with
    | zero =>
      simp
      have := one_le_sizeOf_pyVal x
      omega
    | succ n =>
      simp
      exact ih n

theorem sizeOf_filter_snd_le (k : String) (kvs : List (String × PyVal)) :
    sizeOf ((kvs.filter (fun kv => kv.1 == k)).map Prod.snd) ≤ sizeOf kvs := by
  induction kvs with
  | nil => simp
  | cons p rest ih =>
    obtain ⟨a, v⟩ := p
    by_cases h : a == k
    · simp [List.filter_cons, h]
      omega
    · simp [List.filter_cons, h]
      omega

theorem sizeOf_collectValues_le (k : String) (dicts : List PyVal) :
    sizeOf (collectValues k dicts) ≤ sizeOf dicts := by
  induction dicts with
  | nil => simp [collectValues]
  | cons d rest ih =>
    have hval : sizeOf ((entriesOf d).filter (fun kv => kv.1 == k)
        |>.map Prod.snd) ≤ sizeOf d := by
      have h1 := sizeOf_filter_snd_le k (entriesOf d)
      have h2 : sizeOf (entriesOf d) ≤ sizeOf d := by
        cases d <;> simp [entriesOf]
      omega
    have happ := sizeOf_pyList_append
      (((entriesOf d).filter (fun kv => kv.1 == k)).map Prod.snd)
      (collectValues k rest)
    simp only [collectValues]
    simp
    omega

theorem sizeOf_collectValues_lt (k : String) (dicts : List PyVal)
    (h : dicts ≠ []) : sizeOf (collectValues k dicts) < sizeOf dicts := by
  cases dicts with
  | nil => exact absurd rfl h
  | cons d rest =>
    have hval : sizeOf ((entriesOf d).filter (fun kv => kv.1 == k)
        |>.map Prod.snd) ≤ sizeOf d := by
      have h1 := sizeOf_filter_snd_le k (entriesOf d)
      have h2 : sizeOf (entriesOf d) ≤ sizeOf d := by
        cases d <;> simp [entriesOf]
      omega
    have happ := sizeOf_pyList_append
      (((entriesOf d).filter (fun kv => kv.1 == k)).map Prod.snd)
      (collectValues k rest)
    have hrest := sizeOf_collectValues_le k rest
    simp only [collectValues]
    simp
    omega

theorem sizeOf_flattenLists_le (vs : List PyVal) :
    sizeOf (flattenLists vs) ≤ sizeOf vs := by
  induction vs with
  | nil => simp [flattenLists]
  | cons v rest ih =>
    have hv := one_le_sizeOf_pyVal v
    cases v with
    | pyList xs =>
      have happ := sizeOf_pyList_append xs (flattenLists rest)
      simp only [flattenLists]
      simp
      omega
    | _ =>
      simp only [flattenLists]
      simp
      omega

mutual

/-- `infer_schema(data, key=key, max_items=max_items)`: dispatch on the
runtime shape of `data` exactly as the `isinstance` chain does.  Result:
the inferred `SchemaNode` and the emitted warnings, or the raised
exception. -/
def infer_schema (data : PyVal) (key : String) (max_items : Int) :
    Except String (SchemaNode × List String) :=
  match data with
  | .pyDict kvs => _infer_dict kvs key max_items
  | .pyList xs => _infer_sequence xs "list" key max_items
  | .pyTuple xs => _infer_sequence xs "tuple" key max_items
  | .pySet xs => _infer_sequence xs "set" key max_items
  | .pyFrozenset xs => _infer_sequence xs "frozenset" key max_items
  | data => .ok (.mk key [_type_name data] [] none, [])
termination_by (sizeOf data, 9, 0)
decreasing_by
  all_goals refine Prod.Lex.left _ _ ?_
  all_goals first
    | omega
    | (simp; omega)
    | simp

/-- `_infer_dict(data, key=key, max_items=max_items)` where `kvs` is
`data.items()` in insertion order. -/
def _infer_dict (kvs : List (String × PyVal)) (key : String) (max_items : Int) :
    Except String (SchemaNode × List String) :=
  match _infer_dict_children kvs max_items with
  | .error e => .error e
  | .ok (children, ws) => .ok (.mk key ["dict"] children none, ws)
termination_by (sizeOf kvs, 8, 0)
decreasing_by
  · exact Prod.Lex.right _ (Prod.Lex.left _ _ (by omega))

/-- The list comprehension of `_infer_dict`:
`[infer_schema(v, key=k, max_items=max_items) for k, v in data.items()]`,
with the per-child warnings concatenated in order and the first exception
propagated. -/
def _infer_dict_children (kvs : List (String × PyVal)) (max_items : Int) :
    Except String (List SchemaNode × List String) :=
  match kvs with
  | [] => .ok ([], [])
  | (k, v) :: rest =>
    match infer_schema v k max_items with
    | .error e => .error e
    | .ok (n, w1) =>
      match _infer_dict_children rest max_items with
      | .error e => .error e
      | .ok (ns, w2) => .ok (n :: ns, w1 ++ w2)
termination_by (sizeOf kvs, 7, 0)
decreasing_by
  all_goals refine Prod.Lex.left _ _ ?_
  all_goals first
    | omega
    | (simp; omega)
    | simp

/-- `_infer_sequence(data, key=key, max_items=max_items)` where `elems` is
`data` in iteration order and `container_type` is `type(data).__name__`.
`list(islice(data, max_items))` raises `ValueError` for a negative
`max_items` and otherwise yields the first `max_items` elements. -/
def _infer_sequence (elems : List PyVal) (container_type : String)
    (key : String) (max_items : Int) :
    Except String (SchemaNode × List String) :=
  if max_items < 0 then .error isliceError
  else
    let sampled := elems.take max_items.toNat
    if sampled.isEmpty then .ok (.mk key [container_type] [] none, [])
    else
      if h1 : pyDistinctSorted (sampled.map _type_name) = ["dict"] then
        match _merge_dict_schemas sampled max_items with
        | .error e => .error e
        | .ok (children, ws) =>
            .ok (.mk key [container_type] children (some "dict"), ws)
      else if (pyDistinctSorted (sampled.map _type_name)).length = 1 then
        .ok (.mk key [container_type] []
              (pyDistinctSorted (sampled.map _type_name)).head?, [])
      else
        .ok (.mk key [container_type] [] none,
             [mixedWarning key (pyDistinctSorted (sampled.map _type_name))])
termination_by (sizeOf elems, 6, 0)
decreasing_by
  · rcases (sizeOf_pyList_take max_items.toNat elems).lt_or_eq with h | h
    · exact Prod.Lex.left _ _ h
    · rw [h]
      exact Prod.Lex.right _ (Prod.Lex.left _ _ (by omega))

/-- `_merge_dict_schemas(dicts, max_items=max_items)`.  The accumulation
loop `for d in dicts: for k, v in d.items(): ...` raises `AttributeError`
at the first `d` that is not an actual dict; otherwise it builds
`all_keys` / `key_types` / `key_values` (here `firstSeenKeys`,
`collectTypes`, `collectValues`) and the second loop emits one child per
key. -/
def _merge_dict_schemas (dicts : List PyVal) (max_items : Int) :
    Except String (List SchemaNode × List String) :=
  match dicts.find? (fun d => !d.isDict) with
  | some d => .error (attrItemsError (_type_name d))
  | none => _merge_children dicts (firstSeenKeys dicts) max_items
termination_by (sizeOf dicts, 4, 0)
decreasing_by
  · exact Prod.Lex.right _ (Prod.Lex.left _ _ (by omega))

/-- The `for k in all_keys` loop of `_merge_dict_schemas`, one child per
key, warnings concatenated in order. -/
def _merge_children (dicts : List PyVal) (keys : List String) (max_items : Int) :
    Except String (List SchemaNode × List String) :=
  match keys with
  | [] => .ok ([], [])
  | k :: restKeys =>
    match _merge_one_key dicts k max_items with
    | .error e => .error e
    | .ok (n, w1) =>
      match _merge_children dicts restKeys max_items with
      | .error e => .error e
      | .ok (ns, w2) => .ok (n :: ns, w1 ++ w2)
termination_by (sizeOf dicts, 3, sizeOf keys)
decreasing_by
  all_goals first
    | exact Prod.Lex.right _ (Prod.Lex.left _ _ (by omega))
    | exact Prod.Lex.right _ (Prod.Lex.right _ (by simp))
    | exact Prod.Lex.right _ (Prod.Lex.right _ (by simp; omega))

/-- The body of the `for k in all_keys` loop: `distinct =
sorted(set(key_types[k]))`, then the three-way branch on `distinct`. -/
def _merge_one_key (dicts : List PyVal) (k : String) (max_items : Int) :
    Except String (SchemaNode × List String) :=
  if h1 : pyDistinctSorted (collectTypes k dicts) = ["dict"] then
    match _merge_dict_schemas (collectValues k dicts) max_items with
    | .error e => .error e
    | .ok (ch, ws) => .ok (.mk k ["dict"] ch none, ws)
  else if h2 : pyDistinctSorted (collectTypes k dicts) = ["list"] then
    _infer_sequence (flattenLists (collectValues k dicts)) "list" k max_items
  else
    .ok (.mk k (pyDistinctSorted (collectTypes k dicts)) [] none, [])
termination_by (sizeOf dicts, 2, 0)
decreasing_by
  · refine Prod.Lex.left _ _ (sizeOf_collectValues_lt k dicts ?_)
    rintro rfl
    simp [collectTypes, collectValues, pyDistinctSorted, sortStrings,
      dedupSorted] at h1
  · refine Prod.Lex.left _ _ (lt_of_le_of_lt (sizeOf_flattenLists_le _)
      (sizeOf_collectValues_lt k dicts ?_))
    rintro rfl
    simp [collectTypes, collectValues, pyDistinctSorted, sortStrings,
      dedupSorted] at h2

end

/- ------------------------------------------------------------------
The tree renderer (`_tree.py`).
------------------------------------------------------------------ -/

def _TEE : String := "├── "
def _ELBOW : String := "└── "
def _PIPE : String := "│   "
def _SPACE : String := "    "

/-- The `_SEQUENCE_TYPES` set of `_tree.py`. -/
def _SEQUENCE_TYPES : List String := ["list", "tuple", "set", "frozenset"]

/-- `_format_type(node)`.  The source tests `len(node.types) == 1 and
node.types[0] in _SEQUENCE_TYPES`, then `node.types == ["dict"]`, then
`len(node.types) == 1`, else `repr(node.types)`; for a single-entry
`types` the middle branches all render that entry bare.  `if
node.element_type:` is Python truthiness, so an empty string would count
as absent. -/
def _format_type (node : SchemaNode) : String :=
  match node.types with
  | [t] =>
    if t ∈ _SEQUENCE_TYPES then
      match node.element_type with
      | some e => if e = "" then t else t ++ "[" ++ e ++ "]"
      | none => t
    else t
  | ts => pyReprStrList ts

theorem sizeOf_schemaNode_children_lt (c : SchemaNode) :
    sizeOf c.children < sizeOf c := by
  cases c with
  | mk k t ch e => simp [SchemaNode.children]; omega

/-- The child loop shared by `_render_node` and `_render_children`: for each
child emit `prefix + connector + key + ": " + formatted type`, then recurse
into its grandchildren with the continued prefix.  The `if child.children:`
guard of the source is kept. -/
def _render_children : List SchemaNode → String → List String
  | [], _ => []
  | c :: rest, pfx =>
    let isLast := rest.isEmpty
    let connector := if isLast then _ELBOW else _TEE
    let childPrefix := pfx ++ (if isLast then _SPACE else _PIPE)
    let line := pfx ++ connector ++ c.key ++ ": " ++ _format_type c
    (line :: (if c.children.isEmpty then []
              else _render_children c.children childPrefix))
      ++ _render_children rest pfx
termination_by l _ => sizeOf l
decreasing_by
  all_goals have := sizeOf_schemaNode_children_lt c
  all_goals simp
  all_goals omega

/-- `_render_node(node, lines, prefix=pfx, is_root=is_root)`: the root line
(just the key for a `["dict"]` root, `key: type` otherwise), then the same
child loop as `_render_children`. -/
def _render_node (node : SchemaNode) (pfx : String) (is_root : Bool) :
    List String :=
  (if is_root then
     (if node.types = ["dict"] then pfx ++ node.key
      else pfx ++ node.key ++ ": " ++ _format_type node)
   else pfx ++ node.key ++ ": " ++ _format_type node)
  :: _render_children node.children pfx

/-- `render(node)`: collect the lines starting from the root with an empty
prefix and join them with a single newline (no trailing newline). -/
def render (node : SchemaNode) : String :=
  String.intercalate "\n" (_render_node node "" true)

/- ------------------------------------------------------------------
`noFakeDict`: no embedded custom object pretends to be a `dict`.
`_merge_dict_schemas` calls `d.items()` on every value whose type name is
`"dict"`, which raises `AttributeError` when the value is an instance of a
user-defined class named `dict`; inputs satisfying this predicate avoid
that (and it is satisfied by everything `json.load` can produce).
------------------------------------------------------------------ -/

mutual

def noFakeDict : PyVal → Bool
  | .pyObj cls => cls != "dict"
  | .pyDict kvs => noFakeDictEntries kvs
  | .pyList xs => noFakeDictAll xs
  | .pyTuple xs => noFakeDictAll xs
  | .pySet xs => noFakeDictAll xs
  | .pyFrozenset xs => noFakeDictAll xs
  | _ => true

def noFakeDictAll : List PyVal → Bool
  | [] => true
  | x :: rest => noFakeDict x && noFakeDictAll rest

def noFakeDictEntries : List (String × PyVal) → Bool
  | [] => true
  | (_, v) :: rest => noFakeDict v && noFakeDictEntries rest

end

/- ------------------------------------------------------------------
Helper lemmas.
------------------------------------------------------------------ -/

/-- The call returned normally (no exception). -/
def okE {α : Type} (r : Except String α) : Prop := ∃ p, r = .ok p

theorem mem_insertSorted {a s : String} {l : List String} :
    a ∈ insertSorted s l ↔ a = s ∨ a ∈ l := by
  induction l with
  | nil => simp [insertSorted]
  | cons t rest ih =>
    by_cases h : s ≤ t
    · simp [insertSorted, h]
    · simp [insertSorted, h, ih]
      tauto

theorem mem_sortStrings {a : String} {l : List String} :
    a ∈ sortStrings l ↔ a ∈ l := by
  induction l with
  | nil => simp [sortStrings]
  | cons s rest ih =>
    simp only [sortStrings, List.foldr_cons] at *
    simp [mem_insertSorted, ih]

theorem mem_dedupSorted {a : String} {l : List String} :
    a ∈ dedupSorted l ↔ a ∈ l := by
  induction l with
  | nil => simp [dedupSorted]
  | cons s rest ih =>
    cases rest with
    | nil => simp [dedupSorted]
    | cons t rrest =>
      by_cases h : s = t
      · subst h
        simp [dedupSorted, ih]
      · simp [dedupSorted, h, ih]

theorem mem_pyDistinctSorted {a : String} {l : List String} :
    a ∈ pyDistinctSorted l ↔ a ∈ l := by
  simp [pyDistinctSorted, mem_dedupSorted, mem_sortStrings]

theorem typeName_all_of_distinct {l : List PyVal} {t : String}
    (h : pyDistinctSorted (l.map _type_name) = [t]) :
    ∀ x ∈ l, _type_name x = t := by
  intro x hx
  have hmem : _type_name x ∈ pyDistinctSorted (l.map _type_name) :=
    mem_pyDistinctSorted.mpr (List.mem_map_of_mem _ hx)
  rw [h] at hmem
  simpa using hmem

theorem ne_nil_of_distinct_collect {k : String} {dicts : List PyVal}
    {t : String} (h : pyDistinctSorted (collectTypes k dicts) = [t]) :
    dicts ≠ [] := by
  rintro rfl
  simp [collectTypes, collectValues, pyDistinctSorted, sortStrings,
    dedupSorted] at h

theorem noFakeDictAll_iff {xs : List PyVal} :
    noFakeDictAll xs = true ↔ ∀ x ∈ xs, noFakeDict x = true := by
  induction xs with
  | nil => simp [noFakeDictAll]
  | cons x rest ih => simp [noFakeDictAll, ih]

theorem noFakeDictEntries_iff {kvs : List (String × PyVal)} :
    noFakeDictEntries kvs = true ↔ ∀ p ∈ kvs, noFakeDict p.2 = true := by
  induction kvs with
  | nil => simp [noFakeDictEntries]
  | cons p rest ih =>
    obtain ⟨k, v⟩ := p
    simp [noFakeDictEntries, ih]

theorem isDict_of_typeName {v : PyVal} (h1 : _type_name v = "dict")
    (h2 : noFakeDict v = true) : v.isDict = true := by
  cases v
  all_goals simp_all [_type_name, PyVal.isDict, noFakeDict]

theorem noFake_entries_value {d : PyVal} (h : noFakeDict d = true)
    {p : String × PyVal} (hp : p ∈ entriesOf d) : noFakeDict p.2 = true := by
  cases d
  case pyDict kvs =>
    exact noFakeDictEntries_iff.mp (by simpa [noFakeDict] using h) p hp
  all_goals simp [entriesOf] at hp

theorem noFake_of_mem_collectValues {k : String} {dicts : List PyVal}
    {v : PyVal} (hreal : ∀ d ∈ dicts, noFakeDict d = true)
    (hv : v ∈ collectValues k dicts) : noFakeDict v = true := by
  induction dicts with
  | nil => simp [collectValues] at hv
  | cons d rest ih =>
    simp only [collectValues, List.mem_append] at hv
    rcases hv with hv | hv
    · obtain ⟨p, hp, rfl⟩ := List.mem_map.mp hv
      exact noFake_entries_value (hreal d (List.mem_cons_self _ _))
        (List.mem_of_mem_filter hp)
    · exact ih (fun d' hd' => hreal d' (List.mem_cons_of_mem _ hd')) hv

theorem noFake_of_mem_flattenLists {vs : List PyVal} {x : PyVal}
    (h : ∀ v ∈ vs, noFakeDict v = true) (hx : x ∈ flattenLists vs) :
    noFakeDict x = true := by
  induction vs with
  | nil => simp [flattenLists] at hx
  | cons v rest ih =>
    have hrest : ∀ v' ∈ rest, noFakeDict v' = true :=
      fun v' hv' => h v' (List.mem_cons_of_mem _ hv')
    cases v
    case pyList xs =>
      simp only [flattenLists, List.mem_append] at hx
      rcases hx with hx | hx
      · have hl := h _ (List.mem_cons_self _ _)
        simp only [noFakeDict] at hl
        exact noFakeDictAll_iff.mp hl x hx
      · exact ih hrest hx
    all_goals exact ih hrest (by simpa [flattenLists] using hx)

theorem find?_not_isDict_eq_none {dicts : List PyVal}
    (h : ∀ d ∈ dicts, d.isDict = true) :
    dicts.find? (fun d => !d.isDict) = none := by
  rw [List.find?_eq_none]
  intro d hd
  simp [h d hd]

/-- Totality of the whole mutual recursion for a non-negative `max_items`
on inputs without fake dicts, by strong induction on size: every entry
point returns `.ok`. -/
theorem infer_total_all (N : Nat) (m : Int) (hm : 0 ≤ m) :
    (∀ kvs : List (String × PyVal), sizeOf kvs ≤ N →
      noFakeDictEntries kvs = true → okE (_infer_dict_children kvs m)) ∧
    (∀ (kvs : List (String × PyVal)) (k : String), sizeOf kvs ≤ N →
      noFakeDictEntries kvs = true → okE (_infer_dict kvs k m)) ∧
    (∀ (v : PyVal) (k : String), sizeOf v ≤ N → noFakeDict v = true →
      okE (infer_schema v k m)) ∧
    (∀ (dicts : List PyVal) (k : String), sizeOf dicts ≤ N →
      (∀ d ∈ dicts, d.isDict = true ∧ noFakeDict d = true) →
      okE (_merge_one_key dicts k m)) ∧
    (∀ (dicts : List PyVal) (keys : List String), sizeOf dicts ≤ N →
      (∀ d ∈ dicts, d.isDict = true ∧ noFakeDict d = true) →
      okE (_merge_children dicts keys m)) ∧
    (∀ dicts : List PyVal, sizeOf dicts ≤ N →
      (∀ d ∈ dicts, d.isDict = true ∧ noFakeDict d = true) →
      okE (_merge_dict_schemas dicts m)) ∧
    (∀ (xs : List PyVal) (ct k : String), sizeOf xs ≤ N →
      (∀ x ∈ xs, noFakeDict x = true) → okE (_infer_sequence xs ct k m)) := by
  induction N using Nat.strong_induction_on with
  | _ N IH =>
    have hChildren : ∀ kvs : List (String × PyVal), sizeOf kvs ≤ N →
        noFakeDictEntries kvs = true → okE (_infer_dict_children kvs m) := by
      intro kvs hsz hnf
      cases kvs with
      | nil => exact ⟨([], []), by simp [_infer_dict_children]⟩
      | cons p rest =>
        obtain ⟨k, v⟩ := p
        simp only [noFakeDictEntries, Bool.and_eq_true] at hnf
        simp only [List.cons.sizeOf_spec, Prod.mk.sizeOf_spec] at hsz
        have hv : sizeOf v < N := by omega
        have hr : sizeOf rest < N := by omega
        obtain ⟨⟨n, w1⟩, h1⟩ := (IH _ hv).2.2.1 v k le_rfl hnf.1
        obtain ⟨⟨ns, w2⟩, h2⟩ := (IH _ hr).1 rest le_rfl hnf.2
        exact ⟨(n :: ns, w1 ++ w2), by simp [_infer_dict_children, h1, h2]⟩
    have hDict : ∀ (kvs : List (String × PyVal)) (k : String),
        sizeOf kvs ≤ N → noFakeDictEntries kvs = true →
        okE (_infer_dict kvs k m) := by
      intro kvs k hsz hnf
      obtain ⟨⟨ns, ws⟩, h⟩ := hChildren kvs hsz hnf
      exact ⟨(.mk k ["dict"] ns none, ws), by simp [_infer_dict, h]⟩
    have hInfer : ∀ (v : PyVal) (k : String), sizeOf v ≤ N →
        noFakeDict v = true → okE (infer_schema v k m) := by
      intro v k hsz hnf
      cases v with
      | pyDict kvs =>
        simp only [PyVal.pyDict.sizeOf_spec] at hsz
        simp only [noFakeDict] at hnf
        obtain ⟨p, hp⟩ := (IH (sizeOf kvs) (by omega)).2.1 kvs k le_rfl hnf
        exact ⟨p, by simp [infer_schema, hp]⟩
      | pyList xs =>
        simp only [PyVal.pyList.sizeOf_spec] at hsz
        simp only [noFakeDict] at hnf
        obtain ⟨p, hp⟩ := (IH (sizeOf xs) (by omega)).2.2.2.2.2.2 xs "list" k
          le_rfl (noFakeDictAll_iff.mp hnf)
        exact ⟨p, by simp [infer_schema, hp]⟩
      | pyTuple xs =>
        simp only [PyVal.pyTuple.sizeOf_spec] at hsz
        simp only [noFakeDict] at hnf
        obtain ⟨p, hp⟩ := (IH (sizeOf xs) (by omega)).2.2.2.2.2.2 xs "tuple" k
          le_rfl (noFakeDictAll_iff.mp hnf)
        exact ⟨p, by simp [infer_schema, hp]⟩
      | pySet xs =>
        simp only [PyVal.pySet.sizeOf_spec] at hsz
        simp only [noFakeDict] at hnf
        obtain ⟨p, hp⟩ := (IH (sizeOf xs) (by omega)).2.2.2.2.2.2 xs "set" k
          le_rfl (noFakeDictAll_iff.mp hnf)
        exact ⟨p, by simp [infer_schema, hp]⟩
      | pyFrozenset xs =>
        simp only [PyVal.pyFrozenset.sizeOf_spec] at hsz
        simp only [noFakeDict] at hnf
        obtain ⟨p, hp⟩ := (IH (sizeOf xs) (by omega)).2.2.2.2.2.2 xs "frozenset"
          k le_rfl (noFakeDictAll_iff.mp hnf)
        exact ⟨p, by simp [infer_schema, hp]⟩
      | pyNone =>
        exact ⟨(.mk k ["NoneType"] [] none, []),
          by simp [infer_schema, _type_name]⟩
      | pyBool b =>
        exact ⟨(.mk k ["bool"] [] none, []), by simp [infer_schema, _type_name]⟩
      | pyInt n =>
        exact ⟨(.mk k ["int"] [] none, []), by simp [infer_schema, _type_name]⟩
      | pyFloat =>
        exact ⟨(.mk k ["float"] [] none, []),
          by simp [infer_schema, _type_name]⟩
      | pyStr s =>
        exact ⟨(.mk k ["str"] [] none, []), by simp [infer_schema, _type_name]⟩
      | pyObj cls =>
        exact ⟨(.mk k [cls] [] none, []), by simp [infer_schema, _type_name]⟩
    have hOneKey : ∀ (dicts : List PyVal) (k : String), sizeOf dicts ≤ N →
        (∀ d ∈ dicts, d.isDict = true ∧ noFakeDict d = true) →
        okE (_merge_one_key dicts k m) := by
      intro dicts k hsz hreal
      have hnf : ∀ d ∈ dicts, noFakeDict d = true := fun d hd => (hreal d hd).2
      by_cases hd : pyDistinctSorted (collectTypes k dicts) = ["dict"]
      · have hne : dicts ≠ [] := ne_nil_of_distinct_collect hd
        have hlt := sizeOf_collectValues_lt k dicts hne
        have hvals : ∀ v ∈ collectValues k dicts,
            v.isDict = true ∧ noFakeDict v = true := by
          intro v hv
          have hvnf := noFake_of_mem_collectValues hnf hv
          have hvt : _type_name v = "dict" := by
            refine typeName_all_of_distinct ?_ v hv
            simpa [collectTypes] using hd
          exact ⟨isDict_of_typeName hvt hvnf, hvnf⟩
        obtain ⟨⟨ch, ws⟩, hmg⟩ := (IH (sizeOf (collectValues k dicts))
          (by omega)).2.2.2.2.2.1 (collectValues k dicts) le_rfl hvals
        exact ⟨(.mk k ["dict"] ch none, ws), by simp [_merge_one_key, hd, hmg]⟩
      · by_cases hl : pyDistinctSorted (collectTypes k dicts) = ["list"]
        · have hne : dicts ≠ [] := ne_nil_of_distinct_collect hl
          have hlt : sizeOf (flattenLists (collectValues k dicts)) <
              sizeOf dicts :=
            lt_of_le_of_lt (sizeOf_flattenLists_le _)
              (sizeOf_collectValues_lt k dicts hne)
          have hflat : ∀ x ∈ flattenLists (collectValues k dicts),
              noFakeDict x = true := by
            intro x hx
            exact noFake_of_mem_flattenLists
              (fun v hv => noFake_of_mem_collectValues hnf hv) hx
          obtain ⟨p, hp⟩ := (IH (sizeOf (flattenLists (collectValues k dicts)))
            (by omega)).2.2.2.2.2.2 (flattenLists (collectValues k dicts))
            "list" k le_rfl hflat
          exact ⟨p, by simp [_merge_one_key, hd, hl, hp]⟩
        · exact ⟨(.mk k (pyDistinctSorted (collectTypes k dicts)) [] none, []),
            by simp [_merge_one_key, hd, hl]⟩
    have hMergeChildren : ∀ (dicts : List PyVal) (keys : List String),
        sizeOf dicts ≤ N →
        (∀ d ∈ dicts, d.isDict = true ∧ noFakeDict d = true) →
        okE (_merge_children dicts keys m) := by
      intro dicts keys hsz hreal
      induction keys with
      | nil => exact ⟨([], []), by simp [_merge_children]⟩
      | cons k rest ihk =>
        obtain ⟨⟨n, w1⟩, h1⟩ := hOneKey dicts k hsz hreal
        obtain ⟨⟨ns, w2⟩, h2⟩ := ihk
        exact ⟨(n :: ns, w1 ++ w2), by simp [_merge_children, h1, h2]⟩
    have hMerge : ∀ dicts : List PyVal, sizeOf dicts ≤ N →
        (∀ d ∈ dicts, d.isDict = true ∧ noFakeDict d = true) →
        okE (_merge_dict_schemas dicts m) := by
      intro dicts hsz hreal
      have hfind := find?_not_isDict_eq_none (fun d hd => (hreal d hd).1)
      obtain ⟨p, hp⟩ := hMergeChildren dicts (firstSeenKeys dicts) hsz hreal
      exact ⟨p, by simp [_merge_dict_schemas, hfind, hp]⟩
    have hSeq : ∀ (xs : List PyVal) (ct k : String), sizeOf xs ≤ N →
        (∀ x ∈ xs, noFakeDict x = true) → okE (_infer_sequence xs ct k m) := by
      intro xs ct k hsz hnf
      have hmlt : ¬ m < 0 := by omega
      by_cases he : (xs.take m.toNat).isEmpty
      · refine ⟨(.mk k [ct] [] none, []), ?_⟩
        simp only [_infer_sequence]
        rw [if_neg hmlt]
        generalize List.take m.toNat xs = s at he ⊢
        simp [he]
      · have hsampled : ∀ x ∈ xs.take m.toNat, noFakeDict x = true :=
          fun x hx => hnf x ((List.take_sublist _ _).subset hx)
        by_cases hd : pyDistinctSorted ((xs.take m.toNat).map _type_name)
            = ["dict"]
        · have hvals : ∀ d ∈ xs.take m.toNat,
              d.isDict = true ∧ noFakeDict d = true := by
            intro d hdm
            have hvt := typeName_all_of_distinct hd d hdm
            exact ⟨isDict_of_typeName hvt (hsampled d hdm), hsampled d hdm⟩
          obtain ⟨⟨ch, ws⟩, hmg⟩ := hMerge (xs.take m.toNat)
            (le_trans (sizeOf_pyList_take _ _) hsz) hvals
          refine ⟨(.mk k [ct] ch (some "dict"), ws), ?_⟩
          simp only [_infer_sequence]
          rw [if_neg hmlt]
          generalize List.take m.toNat xs = s at he hd hmg ⊢
          simp [he, hd, hmg]
        · by_cases h1 : (pyDistinctSorted ((xs.take m.toNat).map
              _type_name)).length = 1
          · refine ⟨(.mk k [ct] []
              (pyDistinctSorted ((xs.take m.toNat).map _type_name)).head?,
              []), ?_⟩
            simp only [_infer_sequence]
            rw [if_neg hmlt]
            generalize List.take m.toNat xs = s at he hd h1 ⊢
            simp [he, hd, h1]
          · refine ⟨(.mk k [ct] [] none,
              [mixedWarning k (pyDistinctSorted ((xs.take m.toNat).map
                _type_name))]), ?_⟩
            simp only [_infer_sequence]
            rw [if_neg hmlt]
            generalize List.take m.toNat xs = s at he hd h1 ⊢
            simp [he, hd, h1]
    exact ⟨hChildren, hDict, hInfer, hOneKey, hMergeChildren, hMerge, hSeq⟩

/-- Totality of `infer_schema` itself, packaged. -/
theorem infer_schema_total (v : PyVal) (k : String) (m : Int) (hm : 0 ≤ m)
    (hnf : noFakeDict v = true) : okE (infer_schema v k m) :=
  (infer_total_all (sizeOf v) m hm).2.2.1 v k le_rfl hnf

/-- The node component of a successful `infer_schema` call (with a dummy
node for the error case, which the lemmas below rule out). -/
def inferNodeD (v : PyVal) (k : String) (m : Int) : SchemaNode :=
  match infer_schema v k m with
  | .ok (n, _) => n
  | .error _ => .mk k [] [] none

/-- `_infer_dict_children` is the in-order list of child inferences as soon
as each of them succeeds. -/
theorem infer_dict_children_map {m : Int} : ∀ {kvs : List (String × PyVal)},
    (∀ p ∈ kvs, okE (infer_schema p.2 p.1 m)) →
    ∃ ws, _infer_dict_children kvs m =
      .ok (kvs.map (fun p => inferNodeD p.2 p.1 m), ws) := by
  intro kvs
  induction kvs with
  | nil => exact fun _ => ⟨[], by simp [_infer_dict_children]⟩
  | cons p rest ih =>
    intro h
    obtain ⟨k, v⟩ := p
    obtain ⟨⟨n, w1⟩, h1⟩ := h (k, v) (List.mem_cons_self _ _)
    obtain ⟨ws2, h2⟩ := ih (fun q hq => h q (List.mem_cons_of_mem _ hq))
    refine ⟨w1 ++ ws2, ?_⟩
    simp only [_infer_dict_children]
    rw [h1, h2]
    simp [inferNodeD, h1]

/-- Every successful `_infer_sequence` call returns a node whose key is the
requested key and whose `types` is the singleton container type. -/
theorem infer_sequence_shape {xs : List PyVal} {ct k : String} {m : Int}
    {n : SchemaNode} {ws : List String}
    (h : _infer_sequence xs ct k m = .ok (n, ws)) :
    n.key = k ∧ n.types = [ct] := by
  simp only [_infer_sequence] at h
  split at h
  · simp at h
  · split at h
    · obtain ⟨rfl, rfl⟩ : SchemaNode.mk k [ct] [] none = n ∧ [] = ws := by
        simpa [eq_comm] using h
      simp [SchemaNode.key, SchemaNode.types]
    · split at h
      · split at h
        · simp at h
        · obtain ⟨rfl, rfl⟩ := by simpa [eq_comm] using h
          simp [SchemaNode.key, SchemaNode.types]
      · split at h
        · obtain ⟨rfl, rfl⟩ := by simpa [eq_comm] using h
          simp [SchemaNode.key, SchemaNode.types]
        · obtain ⟨rfl, rfl⟩ := by simpa [eq_comm] using h
          simp [SchemaNode.key, SchemaNode.types]

/-- Every successful `_merge_one_key` call returns a node labelled with the
merged key. -/
theorem merge_one_key_key {dicts : List PyVal} {k : String} {m : Int}
    {n : SchemaNode} {ws : List String}
    (h : _merge_one_key dicts k m = .ok (n, ws)) : n.key = k := by
  simp only [_merge_one_key] at h
  split at h
  · split at h
    · simp at h
    · obtain ⟨rfl, rfl⟩ := by simpa [eq_comm] using h
      simp [SchemaNode.key]
  · split at h
    · exact (infer_sequence_shape h).1
    · obtain ⟨rfl, rfl⟩ := by simpa [eq_comm] using h
      simp [SchemaNode.key]

/-- The children produced by the merge loop are labelled by the processed
keys, in order. -/
theorem merge_children_keys {dicts : List PyVal} {m : Int} :
    ∀ {keys : List String} {ns : List SchemaNode} {ws : List String},
    _merge_children dicts keys m = .ok (ns, ws) →
    ns.map SchemaNode.key = keys := by
  intro keys
  induction keys with
  | nil =>
    intro ns ws h
    simp only [_merge_children] at h
    obtain ⟨rfl, rfl⟩ := by simpa [eq_comm] using h
    simp
  | cons k rest ih =>
    intro ns ws h
    simp only [_merge_children] at h
    split at h
    · simp at h
    · split at h
      · simp at h
      · obtain ⟨rfl, rfl⟩ := by simpa [eq_comm] using h
        simp only [List.map_cons, List.cons.injEq]
        constructor
        · exact merge_one_key_key (by assumption)
        · exact ih (by assumption)

/-- A successful dict-list merge returns one child per key of the
first-seen key union, in first-seen order. -/
theorem merge_dict_schemas_keys {dicts : List PyVal} {m : Int}
    {ns : List SchemaNode} {ws : List String}
    (h : _merge_dict_schemas dicts m = .ok (ns, ws)) :
    ns.map SchemaNode.key = firstSeenKeys dicts := by
  simp only [_merge_dict_schemas] at h
  split at h
  · simp at h
  · exact merge_children_keys h

/- ------------------------------------------------------------------
Branch lemmas for `_infer_sequence`.
------------------------------------------------------------------ -/

/-- With `max_items = 0` nothing is sampled: any container falls through to
the empty case. -/
theorem infer_sequence_zero (xs : List PyVal) (ct k : String) :
    _infer_sequence xs ct k 0 = .ok (.mk k [ct] [] none, []) := by
  simp [_infer_sequence]

/-- With a negative `max_items`, `islice` raises before anything is
inspected. -/
theorem infer_sequence_neg (xs : List PyVal) (ct k : String) {m : Int}
    (hm : m < 0) : _infer_sequence xs ct k m = .error isliceError := by
  simp [_infer_sequence, hm]

/-- The single-element-type branch: when the sampled elements share exactly
one type name other than `"dict"`, the node records it as `element_type`
and nothing else happens (no children, no warning, no recursion). -/
theorem infer_sequence_single_type {xs : List PyVal} {ct k t : String}
    {m : Int} (hm : 1 ≤ m)
    (ht : pyDistinctSorted ((xs.take m.toNat).map _type_name) = [t])
    (hnd : t ≠ "dict") :
    _infer_sequence xs ct k m = .ok (.mk k [ct] [] (some t), []) := by
  have hmlt : ¬ m < 0 := by omega
  simp only [_infer_sequence]
  rw [if_neg hmlt]
  generalize List.take m.toNat xs = s at ht ⊢
  have hne : ¬ s.isEmpty = true := by
    rcases s with _ | ⟨a, s⟩
    · simp [pyDistinctSorted, sortStrings, dedupSorted] at ht
    · simp
  have hd : ¬ pyDistinctSorted (s.map _type_name) = ["dict"] := by
    rw [ht]
    simpa using hnd
  rw [if_neg hne, dif_neg hd, ht]
  simp

/-- The mixed-type branch: two or more distinct sampled type names produce
exactly one warning and a bare container node. -/
theorem infer_sequence_mixed {xs : List PyVal} {ct k : String} {m : Int}
    (hm : 0 ≤ m)
    (hlen : 2 ≤ (pyDistinctSorted ((xs.take m.toNat).map _type_name)).length) :
    _infer_sequence xs ct k m = .ok (.mk k [ct] [] none,
      [mixedWarning k (pyDistinctSorted ((xs.take m.toNat).map _type_name))]) := by
  have hmlt : ¬ m < 0 := by omega
  simp only [_infer_sequence]
  rw [if_neg hmlt]
  generalize List.take m.toNat xs = s at hlen ⊢
  have hne : ¬ s.isEmpty = true := by
    rcases s with _ | ⟨a, s⟩
    · simp [pyDistinctSorted, sortStrings, dedupSorted] at hlen
    · simp
  have hd : ¬ pyDistinctSorted (s.map _type_name) = ["dict"] := by
    intro hcontra
    rw [hcontra] at hlen
    simp at hlen
  have h1 : ¬ (pyDistinctSorted (s.map _type_name)).length = 1 := by omega
  rw [if_neg hne, dif_neg hd, if_neg h1]

/- ------------------------------------------------------------------
The claims.
------------------------------------------------------------------ -/

/-- C1, counterexample: `max_items = -1` on the non-empty list `[1]` does
not succeed — `islice` raises `ValueError`, contradicting the claim that
every `max_items ≤ 0` succeeds with an unsampled-container node. -/
theorem claim_C1_counterexample :
    infer_schema (.pyList [.pyInt 1]) "root" (-1) = .error isliceError := by
  have h := infer_sequence_neg [PyVal.pyInt 1] "list" "root"
    (by norm_num : (-1 : Int) < 0)
  simp [infer_schema, h]

/-- C1, amended: for every non-empty list/tuple/set/frozenset input,
`max_items = 0` succeeds and returns a node with only the container type
name (no `element_type`, no children) — the unsampled case — while every
`max_items < 0` raises `ValueError` from `islice`. -/
theorem claim_C1_amended (xs : List PyVal) (k : String) (hne : xs ≠ []) :
    (infer_schema (.pyList xs) k 0 = .ok (.mk k ["list"] [] none, []) ∧
     infer_schema (.pyTuple xs) k 0 = .ok (.mk k ["tuple"] [] none, []) ∧
     infer_schema (.pySet xs) k 0 = .ok (.mk k ["set"] [] none, []) ∧
     infer_schema (.pyFrozenset xs) k 0 =
       .ok (.mk k ["frozenset"] [] none, [])) ∧
    (∀ m : Int, m < 0 →
      infer_schema (.pyList xs) k m = .error isliceError ∧
      infer_schema (.pyTuple xs) k m = .error isliceError ∧
      infer_schema (.pySet xs) k m = .error isliceError ∧
      infer_schema (.pyFrozenset xs) k m = .error isliceError) := by
  constructor
  · refine ⟨?_, ?_, ?_, ?_⟩ <;>
      simp [infer_schema, infer_sequence_zero]
  · intro m hm
    refine ⟨?_, ?_, ?_, ?_⟩ <;>
      simp [infer_schema, infer_sequence_neg _ _ _ hm]

/-- C1, witness for the amended claim at concrete inputs. -/
theorem claim_C1_witness :
    ([PyVal.pyInt 1] ≠ ([] : List PyVal)) ∧
    infer_schema (.pyList [.pyInt 1]) "root" 0 =
      .ok (.mk "root" ["list"] [] none, []) ∧
    ((-1 : Int) < 0) ∧
    infer_schema (.pyTuple [.pyInt 1]) "root" (-1) = .error isliceError :=
  ⟨by simp, (claim_C1_amended [.pyInt 1] "root" (by simp)).1.1,
   by norm_num,
   ((claim_C1_amended [.pyInt 1] "root" (by simp)).2 (-1) (by norm_num)).2.1⟩

/-- C2, counterexample: the code is not total over all runtime types.  An
instance of a user-defined class named `dict` (so `type(x).__name__ ==
"dict"` but `isinstance(x, dict)` is false) placed in a list sends
`_merge_dict_schemas` into `x.items()`, an uncaught `AttributeError`. -/
theorem claim_C2_counterexample :
    infer_schema (.pyList [.pyObj "dict"]) "root" 10 =
      .error (attrItemsError "dict") := by
  simp [infer_schema, _infer_sequence, _merge_dict_schemas, _type_name,
    PyVal.isDict, pyDistinctSorted, sortStrings, insertSorted, dedupSorted]

/-- C2, amended: with the default `max_items` the inference never raises on
any input containing no custom object whose class is named `"dict"`
(everything JSON-decodable qualifies); any value of an unrecognised type is
a leaf node carrying exactly its runtime type name, with no children and no
`element_type`, as are `None` and booleans. -/
theorem claim_C2_amended :
    (∀ (v : PyVal) (k : String), noFakeDict v = true →
      ∃ p, infer_schema v k 10 = .ok p) ∧
    (∀ (cls k : String),
      infer_schema (.pyObj cls) k 10 = .ok (.mk k [cls] [] none, [])) ∧
    (∀ k : String,
      infer_schema .pyNone k 10 = .ok (.mk k ["NoneType"] [] none, [])) ∧
    (∀ (b : Bool) (k : String),
      infer_schema (.pyBool b) k 10 = .ok (.mk k ["bool"] [] none, [])) := by
  refine ⟨?_, ?_, ?_, ?_⟩
  · intro v k hnf
    exact infer_schema_total v k 10 (by norm_num) hnf
  · intro cls k
    simp [infer_schema, _type_name]
  · intro k
    simp [infer_schema, _type_name]
  · intro b k
    simp [infer_schema, _type_name]

/-- C2, witness for the amended claim at a concrete nested input. -/
theorem claim_C2_witness :
    noFakeDict (.pyDict [("a", .pyList [.pyInt 1, .pyStr "s"])]) = true ∧
    ∃ p, infer_schema (.pyDict [("a", .pyList [.pyInt 1, .pyStr "s"])])
      "root" 10 = .ok p :=
  ⟨by simp [noFakeDict, noFakeDictAll, noFakeDictEntries],
   claim_C2_amended.1 _ "root"
     (by simp [noFakeDict, noFakeDictAll, noFakeDictEntries])⟩

/-- C10: a string input is dispatched by the `isinstance` chain to the
scalar fallback — never to the sequence branch, never sampled
character-by-character, with no diagnostic — for every string, key and
`max_items` (even invalid ones, since `islice` is never reached). -/
theorem claim_C10 (s k : String) (m : Int) :
    infer_schema (.pyStr s) k m = .ok (.mk k ["str"] [] none, []) := by
  simp [infer_schema, _type_name]

/-- C3, counterexample: not every `max_items` works — a negative
`max_items` propagates into the value inference and raises `ValueError`,
and a list-of-fake-dict value raises `AttributeError`; in both cases
`infer_schema` of the dict returns no node at all. -/
theorem claim_C3_counterexample :
    infer_schema (.pyDict [("x", .pyList [.pyInt 1])]) "root" (-1) =
      .error isliceError ∧
    infer_schema (.pyDict [("x", .pyList [.pyObj "dict"])]) "root" 10 =
      .error (attrItemsError "dict") := by
  constructor
  · simp [infer_schema, _infer_dict, _infer_dict_children, _infer_sequence]
  · simp [infer_schema, _infer_dict, _infer_dict_children, _infer_sequence,
      _merge_dict_schemas, _type_name, PyVal.isDict, pyDistinctSorted,
      sortStrings, insertSorted, dedupSorted]

/-- C3, amended: for every dict input (entries in insertion order), every
`max_items ≥ 0` and values free of fake `"dict"`-named objects,
`infer_schema` returns `types = ["dict"]` with exactly one child per entry,
in insertion order, each child being the inference of the corresponding
value under its key with the same `max_items`. -/
theorem claim_C3_amended (kvs : List (String × PyVal)) (k : String) (m : Int)
    (hm : 0 ≤ m) (hnf : noFakeDictEntries kvs = true) :
    ∃ ws, infer_schema (.pyDict kvs) k m =
        .ok (.mk k ["dict"] (kvs.map fun p => inferNodeD p.2 p.1 m) none, ws)
      ∧ (kvs.map fun p => inferNodeD p.2 p.1 m).length = kvs.length
      ∧ ∀ p ∈ kvs, ∃ w,
          infer_schema p.2 p.1 m = .ok (inferNodeD p.2 p.1 m, w) := by
  have hok : ∀ p ∈ kvs, okE (infer_schema p.2 p.1 m) := by
    intro p hp
    exact infer_schema_total p.2 p.1 m hm (noFakeDictEntries_iff.mp hnf p hp)
  obtain ⟨ws, hch⟩ := infer_dict_children_map hok
  refine ⟨ws, ?_, List.length_map _ _, ?_⟩
  · simp [infer_schema, _infer_dict, hch]
  · intro p hp
    obtain ⟨⟨n, w⟩, hw⟩ := hok p hp
    exact ⟨w, by rw [hw]; simp [inferNodeD, hw]⟩

/-- C3, witness for the amended claim at a concrete dict. -/
theorem claim_C3_witness :
    (0 : Int) ≤ 10 ∧
    noFakeDictEntries [("x", PyVal.pyList [.pyInt 1])] = true ∧
    ∃ ws, infer_schema (.pyDict [("x", .pyList [.pyInt 1])]) "root" 10 =
        .ok (.mk "root" ["dict"]
          ([("x", PyVal.pyList [.pyInt 1])].map fun p =>
            inferNodeD p.2 p.1 10) none, ws)
      ∧ ([("x", PyVal.pyList [.pyInt 1])].map fun p =>
          inferNodeD p.2 p.1 10).length =
          [("x", PyVal.pyList [.pyInt 1])].length
      ∧ ∀ p ∈ [("x", PyVal.pyList [.pyInt 1])], ∃ w,
          infer_schema p.2 p.1 10 = .ok (inferNodeD p.2 p.1 10, w) :=
  ⟨by norm_num,
   by simp [noFakeDictEntries, noFakeDict, noFakeDictAll],
   claim_C3_amended [("x", .pyList [.pyInt 1])] "root" 10 (by norm_num)
     (by simp [noFakeDictEntries, noFakeDict, noFakeDictAll])⟩

/-- C4: a non-empty sequence container whose first `max_items` elements
(`max_items ≥ 1`) share exactly one runtime type name `t ≠ "dict"` —
including a nested sequence type such as `"list"`, which is not recursed
into — yields `types = [container]`, `element_type = t`, no children, no
warning, for each of the four container kinds. -/
theorem claim_C4 (xs : List PyVal) (k t : String) (m : Int) (hne : xs ≠ [])
    (hm : 1 ≤ m)
    (ht : pyDistinctSorted ((xs.take m.toNat).map _type_name) = [t])
    (hnd : t ≠ "dict") :
    infer_schema (.pyList xs) k m = .ok (.mk k ["list"] [] (some t), []) ∧
    infer_schema (.pyTuple xs) k m = .ok (.mk k ["tuple"] [] (some t), []) ∧
    infer_schema (.pySet xs) k m = .ok (.mk k ["set"] [] (some t), []) ∧
    infer_schema (.pyFrozenset xs) k m =
      .ok (.mk k ["frozenset"] [] (some t), []) := by
  refine ⟨?_, ?_, ?_, ?_⟩ <;>
    simp [infer_schema, infer_sequence_single_type hm ht hnd]

/-- C4, witness: a list of lists is tagged `element_type = "list"` and not
recursed into. -/
theorem claim_C4_witness :
    ([PyVal.pyList [.pyInt 1], PyVal.pyList []] ≠ ([] : List PyVal)) ∧
    (1 : Int) ≤ 10 ∧
    pyDistinctSorted ((([PyVal.pyList [.pyInt 1], PyVal.pyList []]).take
      (10 : Int).toNat).map _type_name) = ["list"] ∧
    ("list" ≠ "dict") ∧
    infer_schema (.pyList [.pyList [.pyInt 1], .pyList []]) "root" 10 =
      .ok (.mk "root" ["list"] [] (some "list"), []) :=
  ⟨by simp, by norm_num,
   by simp [_type_name, pyDistinctSorted, sortStrings, insertSorted,
     dedupSorted],
   by simp,
   (claim_C4 [.pyList [.pyInt 1], .pyList []] "root" "list" 10 (by simp)
     (by norm_num)
     (by simp [_type_name, pyDistinctSorted, sortStrings, insertSorted,
       dedupSorted])
     (by simp)).1⟩

/-- C5: a sequence whose sampled elements span two or more distinct runtime
type names returns normally (the diagnostic never interrupts traversal)
with a bare container node — no `element_type`, no children — and emits
exactly one warning, whose text is exactly
`Key '<key>': mixed types in list: <sorted distinct type names>`; the
message formats the sorted list Python-style, bit-exact. -/
theorem claim_C5 (xs : List PyVal) (k : String) (m : Int) (hm : 0 ≤ m)
    (hlen : 2 ≤ (pyDistinctSorted ((xs.take m.toNat).map _type_name)).length) :
    (infer_schema (.pyList xs) k m = .ok (.mk k ["list"] [] none,
        [mixedWarning k (pyDistinctSorted ((xs.take m.toNat).map _type_name))])
      ∧ infer_schema (.pyTuple xs) k m = .ok (.mk k ["tuple"] [] none,
        [mixedWarning k (pyDistinctSorted ((xs.take m.toNat).map _type_name))])
      ∧ infer_schema (.pySet xs) k m = .ok (.mk k ["set"] [] none,
        [mixedWarning k (pyDistinctSorted ((xs.take m.toNat).map _type_name))])
      ∧ infer_schema (.pyFrozenset xs) k m = .ok (.mk k ["frozenset"] [] none,
        [mixedWarning k (pyDistinctSorted ((xs.take m.toNat).map _type_name))]))
    ∧ mixedWarning k (pyDistinctSorted ((xs.take m.toNat).map _type_name)) =
        "Key '" ++ k ++ "': mixed types in list: " ++
          pyReprStrList (pyDistinctSorted ((xs.take m.toNat).map _type_name))
    ∧ mixedWarning "history" ["int", "str"] =
        "Key 'history': mixed types in list: ['int', 'str']" := by
  refine ⟨⟨?_, ?_, ?_, ?_⟩, rfl, ?_⟩
  · simp [infer_schema, infer_sequence_mixed hm hlen]
  · simp [infer_schema, infer_sequence_mixed hm hlen]
  · simp [infer_schema, infer_sequence_mixed hm hlen]
  · simp [infer_schema, infer_sequence_mixed hm hlen]
  · rfl

/-- C5, witness at a concrete mixed list. -/
theorem claim_C5_witness :
    (0 : Int) ≤ 10 ∧
    2 ≤ (pyDistinctSorted ((([PyVal.pyInt 1, PyVal.pyStr "a"]).take
      (10 : Int).toNat).map _type_name)).length ∧
    infer_schema (.pyList [.pyInt 1, .pyStr "a"]) "k" 10 =
      .ok (.mk "k" ["list"] [] none,
        [mixedWarning "k" (pyDistinctSorted
          ((([PyVal.pyInt 1, PyVal.pyStr "a"]).take
            (10 : Int).toNat).map _type_name))]) :=
  ⟨by norm_num,
   by simp [_type_name, pyDistinctSorted, sortStrings, insertSorted,
     dedupSorted],
   (claim_C5 [.pyInt 1, .pyStr "a"] "k" 10 (by norm_num)
     (by simp [_type_name, pyDistinctSorted, sortStrings, insertSorted,
       dedupSorted])).1.1⟩

/-- C6: merged children come out in first-seen key order across the input
dicts (keys absent from earlier dicts are appended when first encountered,
dicts missing a key contribute nothing), with the three concrete merges of
the claim evaluated bit-exactly. -/
theorem claim_C6 :
    (∀ (dicts : List PyVal) (m : Int) (ns : List SchemaNode)
        (ws : List String),
      _merge_dict_schemas dicts m = .ok (ns, ws) →
      ns.map SchemaNode.key = firstSeenKeys dicts) ∧
    _merge_dict_schemas
        [.pyDict [("a", .pyInt 1)], .pyDict [("b", .pyInt 2)]] 10 =
      .ok ([.mk "a" ["int"] [] none, .mk "b" ["int"] [] none], []) ∧
    _merge_dict_schemas
        [.pyDict [("b", .pyInt 2)], .pyDict [("a", .pyInt 1)]] 10 =
      .ok ([.mk "b" ["int"] [] none, .mk "a" ["int"] [] none], []) ∧
    _merge_dict_schemas
        [.pyDict [("a", .pyInt 1), ("b", .pyStr "x")], .pyDict [("a", .pyInt 2)]]
        10 =
      .ok ([.mk "a" ["int"] [] none, .mk "b" ["str"] [] none], []) := by
  refine ⟨fun dicts m ns ws h => merge_dict_schemas_keys h, ?_, ?_, ?_⟩ <;>
    simp [_merge_dict_schemas, _merge_children, _merge_one_key, PyVal.isDict,
      firstSeenKeys, insertKey, entriesOf, collectTypes, collectValues,
      _type_name, pyDistinctSorted, sortStrings, insertSorted, dedupSorted]

/-- C6, witness for the key-order statement, at the first concrete merge. -/
theorem claim_C6_witness :
    List.map SchemaNode.key
        [SchemaNode.mk "a" ["int"] [] none, SchemaNode.mk "b" ["int"] [] none]
      = firstSeenKeys [.pyDict [("a", .pyInt 1)], .pyDict [("b", .pyInt 2)]] :=
  claim_C6.1 _ 10 _ _ claim_C6.2.1

/-- The five dicts of the C7 pooling scenario: key `"a"` holds a length-3
list in each of five dicts (nine ints, then six strings). -/
def C7dicts : List PyVal :=
  [.pyDict [("a", .pyList [.pyInt 1, .pyInt 2, .pyInt 3])],
   .pyDict [("a", .pyList [.pyInt 4, .pyInt 5, .pyInt 6])],
   .pyDict [("a", .pyList [.pyInt 7, .pyInt 8, .pyInt 9])],
   .pyDict [("a", .pyList [.pyStr "p", .pyStr "q", .pyStr "r"])],
   .pyDict [("a", .pyList [.pyStr "s", .pyStr "t", .pyStr "u"])]]

/-- C7: when every collected value of a key is a list, the merge infers the
key's node from the concatenation of all those lists' elements, as one
pool, with the same `max_items` — so the cap applies only after
flattening.  Witnessed by the five-dict scenario: the pool has 15
elements, and sampling 10 of it crosses the dict boundary (nine ints and
one string get sampled), yielding a single mixed-type warning instead of
per-dict homogeneous sampling. -/
theorem claim_C7 :
    (∀ (dicts : List PyVal) (k : String) (m : Int),
      pyDistinctSorted (collectTypes k dicts) = ["list"] →
      _merge_one_key dicts k m =
        _infer_sequence (flattenLists (collectValues k dicts)) "list" k m) ∧
    (flattenLists (collectValues "a" C7dicts)).length = 15 ∧
    _merge_dict_schemas C7dicts 10 =
      .ok ([.mk "a" ["list"] [] none], [mixedWarning "a" ["int", "str"]]) := by
  refine ⟨?_, ?_, ?_⟩
  · intro dicts k m h
    have hnd : ¬ pyDistinctSorted (collectTypes k dicts) = ["dict"] := by
      rw [h]
      simp
    simp only [_merge_one_key]
    rw [dif_neg hnd, dif_pos h]
  · simp [C7dicts, collectValues, flattenLists, entriesOf]
  · simp [C7dicts, _merge_dict_schemas, _merge_children, _merge_one_key,
      _infer_sequence, PyVal.isDict, firstSeenKeys, insertKey, entriesOf,
      collectTypes, collectValues, flattenLists, _type_name,
      pyDistinctSorted, sortStrings, insertSorted, dedupSorted]

/-- C7, witness for the branch statement at the five-dict scenario. -/
theorem claim_C7_witness :
    pyDistinctSorted (collectTypes "a" C7dicts) = ["list"] ∧
    _merge_one_key C7dicts "a" 10 =
      _infer_sequence (flattenLists (collectValues "a" C7dicts)) "list" "a"
        10 :=
  ⟨by simp [C7dicts, collectTypes, collectValues, entriesOf, _type_name,
     pyDistinctSorted, sortStrings, insertSorted, dedupSorted],
   claim_C7.1 C7dicts "a" 10
     (by simp [C7dicts, collectTypes, collectValues, entriesOf, _type_name,
       pyDistinctSorted, sortStrings, insertSorted, dedupSorted])⟩

/-- C8: a merged key whose collected distinct type set is neither exactly
`{"dict"}` nor exactly `{"list"}` becomes a child carrying the sorted
deduplicated type-name list verbatim, with no children and no
`element_type`; a multi-entry list renders as the literal Python list
`repr`, bit-exact. -/
theorem claim_C8 :
    (∀ (dicts : List PyVal) (k : String) (m : Int),
      pyDistinctSorted (collectTypes k dicts) ≠ ["dict"] →
      pyDistinctSorted (collectTypes k dicts) ≠ ["list"] →
      _merge_one_key dicts k m =
        .ok (.mk k (pyDistinctSorted (collectTypes k dicts)) [] none, [])) ∧
    _merge_one_key [.pyDict [("r", .pyNone)], .pyDict [("r", .pyInt 1)]] "r"
        10 =
      .ok (.mk "r" ["NoneType", "int"] [] none, []) ∧
    _format_type (.mk "r" ["NoneType", "int"] [] none) =
      "['NoneType', 'int']" := by
  refine ⟨?_, ?_, ?_⟩
  · intro dicts k m hd hl
    simp only [_merge_one_key]
    rw [dif_neg hd, dif_neg hl]
  · simp [_merge_one_key, collectTypes, collectValues, entriesOf,
      _type_name, pyDistinctSorted, sortStrings, insertSorted, dedupSorted]
  · rfl

/-- C8, witness for the branch statement at the `[None, 1]` scenario. -/
theorem claim_C8_witness :
    pyDistinctSorted (collectTypes "r"
        [.pyDict [("r", .pyNone)], .pyDict [("r", .pyInt 1)]]) ≠ ["dict"] ∧
    _merge_one_key [.pyDict [("r", .pyNone)], .pyDict [("r", .pyInt 1)]] "r"
        10 =
      .ok (.mk "r" (pyDistinctSorted (collectTypes "r"
        [.pyDict [("r", .pyNone)], .pyDict [("r", .pyInt 1)]])) [] none, []) :=
  ⟨by simp [collectTypes, collectValues, entriesOf, _type_name,
     pyDistinctSorted, sortStrings, insertSorted, dedupSorted],
   claim_C8.1 _ "r" 10
     (by simp [collectTypes, collectValues, entriesOf, _type_name,
       pyDistinctSorted, sortStrings, insertSorted, dedupSorted])
     (by simp [collectTypes, collectValues, entriesOf, _type_name,
       pyDistinctSorted, sortStrings, insertSorted, dedupSorted])⟩

/-- C9: the root line is just the key when the root node's `types ==
["dict"]` and `key: formattedType` otherwise, lines joined by a single
newline with no trailing newline; the three renders of the claim are
bit-exact (the inferred trees are also pinned down, so the composites
`render(infer_schema(...))` follow). -/
theorem claim_C9 :
    (∀ nd : SchemaNode, nd.types = ["dict"] →
      render nd =
        String.intercalate "\n" (nd.key :: _render_children nd.children "")) ∧
    (∀ nd : SchemaNode, nd.types ≠ ["dict"] →
      render nd = String.intercalate "\n"
        ((nd.key ++ ": " ++ _format_type nd)
          :: _render_children nd.children "")) ∧
    infer_schema (.pyDict [("x", .pyList [.pyInt 1, .pyInt 2, .pyInt 3])])
        "root" 10 =
      .ok (.mk "root" ["dict"] [.mk "x" ["list"] [] (some "int")] none, []) ∧
    render (.mk "root" ["dict"] [.mk "x" ["list"] [] (some "int")] none) =
      "root\n└── x: list[int]" ∧
    infer_schema (.pyList [.pyInt 1, .pyInt 2, .pyInt 3]) "root" 10 =
      .ok (.mk "root" ["list"] [] (some "int"), []) ∧
    render (.mk "root" ["list"] [] (some "int")) = "root: list[int]" ∧
    infer_schema (.pyDict []) "root" 10 = .ok (.mk "root" ["dict"] [] none, [])
    ∧ render (.mk "root" ["dict"] [] none) = "root" := by
  refine ⟨?_, ?_, ?_, ?_, ?_, ?_, ?_, ?_⟩
  · intro nd h
    simp [render, _render_node, h]
  · intro nd h
    simp [render, _render_node, h]
  · simp [infer_schema, _infer_dict, _infer_dict_children, _infer_sequence,
      _type_name, pyDistinctSorted, sortStrings, insertSorted, dedupSorted]
  · simp [render, _render_node, _render_children, _format_type,
      _SEQUENCE_TYPES, _ELBOW, _TEE, _PIPE, _SPACE, SchemaNode.key,
      SchemaNode.types, SchemaNode.children, SchemaNode.element_type]
    rfl
  · simp [infer_schema, _infer_sequence, _type_name, pyDistinctSorted,
      sortStrings, insertSorted, dedupSorted]
  · simp [render, _render_node, _render_children, _format_type,
      _SEQUENCE_TYPES, SchemaNode.key, SchemaNode.types,
      SchemaNode.children, SchemaNode.element_type]
    rfl
  · simp [infer_schema, _infer_dict, _infer_dict_children]
  · simp [render, _render_node, _render_children, SchemaNode.key,
      SchemaNode.types, SchemaNode.children]
    rfl

/-- C9, witness for the root-line statements at concrete nodes. -/
theorem claim_C9_witness :
    ((SchemaNode.mk "root" ["dict"] [] none).types = ["dict"] ∧
      render (.mk "root" ["dict"] [] none) = String.intercalate "\n"
        ((SchemaNode.mk "root" ["dict"] [] none).key ::
          _render_children (SchemaNode.mk "root" ["dict"] [] none).children
            "")) ∧
    ((SchemaNode.mk "root" ["int"] [] none).types ≠ ["dict"] ∧
      render (.mk "root" ["int"] [] none) = String.intercalate "\n"
        (((SchemaNode.mk "root" ["int"] [] none).key ++ ": " ++
            _format_type (.mk "root" ["int"] [] none)) ::
          _render_children (SchemaNode.mk "root" ["int"] [] none).children
            "")) :=
  ⟨⟨rfl, claim_C9.1 _ rfl⟩,
   ⟨by simp [SchemaNode.types], claim_C9.2.1 _ (by simp [SchemaNode.types])⟩⟩

end SchemaPreview
